import Mathlib

/-!
Verification of the PNG chunk container core (chunk_type.rs, chunk.rs and
the Container described by the specification) as a shallow embedding.

Bytes are modelled as `Nat` values, with `< 256` bounds carried as
hypotheses where the Rust `u8` type guarantees them.  32-bit integers are
`Nat` values `< 2 ^ 32`.  Rust `Result` values together with the
possibility of a panic (out-of-bounds slice index, `unwrap` of an `Err`)
are modelled by `ParseResult`: a panic aborts the process, so it is a
distinct outcome from a returned error.
-/

/-- Outcome of a fallible Rust operation: a returned `Ok`, a returned
`Err` carrying the static message, or a process abort (panic). -/
inductive ErrMsg : Type where
  /-- models the message "Invalid PNG chunk data" -/
  | invalidPngChunkData : ErrMsg
  /-- models the message "Invalid chunk CRC" -/
  | invalidChunkCrc : ErrMsg
  /-- models the message "Invalid utf8 characters in value" -/
  | invalidUtf8Chars : ErrMsg
  /-- models the specification error `SignatureMismatch` of the Container -/
  | signatureMismatch : ErrMsg
  /-- models the specification error `NotFound` of the Container -/
  | notFound : ErrMsg
deriving DecidableEq

/-- Result of running a piece of Rust code that may return an error or
panic.  `crash` models a Rust panic / process abort. -/
inductive ParseResult (α : Type) : Type where
  | ok : α → ParseResult α
  | err : ErrMsg → ParseResult α
  | crash : ParseResult α
deriving DecidableEq

/-- Sequencing of fallible Rust steps: errors and panics propagate. -/
def ParseResult.bind {α β : Type} : ParseResult α → (α → ParseResult β) → ParseResult β
  | .ok a, f => f a
  | .err e, _ => .err e
  | .crash, _ => .crash

/-- Every element of the list is a byte value (models a `u8` slice). -/
def allBytes (l : List Nat) : Prop := ∀ b ∈ l, b < 256

instance : DecidablePred allBytes := fun l =>
  inferInstanceAs (Decidable (∀ b ∈ l, b < 256))

/-- Big-endian interpretation of a byte list (models `u32::from_be_bytes`
when the list has 4 elements). -/
def be32 (l : List Nat) : Nat := l.foldl (fun a b => a * 256 + b) 0

/-- Big-endian 4-byte encoding of a 32-bit value (models
`u32::to_be_bytes`). -/
def u32_be_bytes (n : Nat) : List Nat :=
  [n / 2 ^ 24 % 256, n / 2 ^ 16 % 256, n / 2 ^ 8 % 256, n % 256]

/-- The reflected CRC-32 polynomial 0xEDB88320, as used by
`crc32fast::hash` (ISO-HDLC / PNG CRC). -/
def crcPoly : Nat := 0xEDB88320

/-- One bit step of the reflected CRC-32 algorithm: shift right, XOR the
polynomial in when the low bit was set. -/
def crcBitStep (c : Nat) : Nat :=
  if c % 2 = 1 then (c / 2) ^^^ crcPoly else c / 2

/-- Iterated bit steps. -/
def crcBitSteps : Nat → Nat → Nat
  | 0, c => c
  | n + 1, c => crcBitSteps n (crcBitStep c)

/-- One byte step of CRC-32: XOR the byte into the state, then run 8 bit
steps (the bitwise form of the `crc32fast` table algorithm). -/
def crcByteStep (c b : Nat) : Nat := crcBitSteps 8 (c ^^^ b)

/-- CRC-32 of a byte list: initial state 0xFFFFFFFF, byte steps, final
complement.  Models `crc32fast::hash`. -/
def crc32 (data : List Nat) : Nat :=
  (data.foldl crcByteStep 0xFFFFFFFF) ^^^ 0xFFFFFFFF

/-- Transition function of the standard UTF-8 validation automaton
(RFC 3629 ranges; overlong forms and surrogates rejected), encoding the
checks performed by Rust `str::from_utf8`.  State 0 is the accepting
start state; states 1 and 2 expect that many `80..BF` continuation
bytes; states 3/4 are the restricted second-byte states after `E0`/`ED`;
states 5/6/7 the second-byte states after `F1..F3` / `F0` / `F4`;
state 9 is the reject sink. -/
def utf8Step (st b : Nat) : Nat :=
  if st = 0 then
    if b < 0x80 then 0
    else if b < 0xC2 then 9
    else if b < 0xE0 then 1
    else if b = 0xE0 then 3
    else if b = 0xED then 4
    else if b < 0xF0 then 2
    else if b = 0xF0 then 6
    else if b < 0xF4 then 5
    else if b = 0xF4 then 7
    else 9
  else if st = 1 then (if 0x80 ≤ b ∧ b < 0xC0 then 0 else 9)
  else if st = 2 then (if 0x80 ≤ b ∧ b < 0xC0 then 1 else 9)
  else if st = 3 then (if 0xA0 ≤ b ∧ b < 0xC0 then 1 else 9)
  else if st = 4 then (if 0x80 ≤ b ∧ b < 0xA0 then 1 else 9)
  else if st = 5 then (if 0x80 ≤ b ∧ b < 0xC0 then 2 else 9)
  else if st = 6 then (if 0x90 ≤ b ∧ b < 0xC0 then 2 else 9)
  else if st = 7 then (if 0x80 ≤ b ∧ b < 0x90 then 2 else 9)
  else 9

/-- Validation of a UTF-8 byte sequence, as performed by Rust
`str::from_utf8`: run the automaton over the bytes and require it to end
in the start state (no dangling incomplete sequence). -/
def utf8Valid (l : List Nat) : Bool := l.foldl utf8Step 0 == 0

/-- Models Rust `u8::is_ascii_uppercase`. -/
def isAsciiUppercaseNat (b : Nat) : Bool := 65 ≤ b && b ≤ 90

/-- Models Rust `u8::is_ascii_lowercase`. -/
def isAsciiLowercaseNat (b : Nat) : Bool := 97 ≤ b && b ≤ 122

/-- The `ChunkType` struct of chunk_type.rs: 4 raw type bytes plus the
five boolean flags stored at construction time. -/
structure ChunkType : Type where
  chunk_type : List Nat
  is_valid : Bool
  is_public : Bool
  is_critical : Bool
  is_safe_to_copy : Bool
  is_reserved_bit_valid : Bool
deriving DecidableEq

/-- The flag assignments shared (verbatim) by the two construction sites
in chunk_type.rs: `is_public` from byte 1, `is_reserved_bit_valid` from
byte 2, `is_safe_to_copy` from byte 3, `is_valid := is_reserved_bit_valid`,
`is_critical` from byte 0. -/
def mkChunkType (value : List Nat) : ChunkType :=
  { chunk_type := value
    is_public := isAsciiUppercaseNat (value.getD 1 0)
    is_reserved_bit_valid := isAsciiUppercaseNat (value.getD 2 0)
    is_safe_to_copy := isAsciiLowercaseNat (value.getD 3 0)
    is_valid := isAsciiUppercaseNat (value.getD 2 0)
    is_critical := isAsciiUppercaseNat (value.getD 0 0) }

/-- `ChunkType::try_from([u8;4])` of chunk_type.rs: the only check is
`str::from_utf8` on the 4 bytes; on success the flags are derived from
the byte cases. -/
def ChunkType.try_from (value : List Nat) : ParseResult ChunkType :=
  if utf8Valid value then .ok (mkChunkType value) else .err .invalidUtf8Chars

/-- UTF-8 encoding of one scalar value (models Rust `char` encoding,
`str::as_bytes`). -/
def charUtf8 (c : Char) : List Nat :=
  let n := c.toNat
  if n < 0x80 then [n]
  else if n < 0x800 then [0xC0 + n / 64, 0x80 + n % 64]
  else if n < 0x10000 then [0xE0 + n / 4096, 0x80 + n / 64 % 64, 0x80 + n % 64]
  else [0xF0 + n / 262144, 0x80 + n / 4096 % 64, 0x80 + n / 64 % 64, 0x80 + n % 64]

/-- UTF-8 byte sequence of a string given as its character list (models
`str::as_bytes`). -/
def strUtf8 (s : List Char) : List Nat := (s.map charUtf8).flatten

/-- The check `s.chars().nth(i).unwrap().is_alphabetic()` of
`ChunkType::from_str` at one index: a missing character panics, a
non-alphabetic one returns the error.  Rust `char::is_alphabetic` agrees
with `Char.isAlpha` on ASCII characters; theorems about `from_str`
restrict the input to ASCII, where this model is exact. -/
def checkAlphaAt (s : List Char) (i : Nat) : ParseResult Unit :=
  match s.get? i with
  | none => .crash
  | some c => if c.isAlpha then .ok () else .err .invalidUtf8Chars

/-- `ChunkType::from_str` of chunk_type.rs: check characters 0..3 are
alphabetic in order (panicking on a missing character), then convert the
UTF-8 bytes into a `[u8; 4]` (`try_into().unwrap()` panics unless the
byte length is exactly 4), then derive the flags. -/
def ChunkType.from_str (s : List Char) : ParseResult ChunkType :=
  ParseResult.bind (checkAlphaAt s 0) fun _ =>
  ParseResult.bind (checkAlphaAt s 1) fun _ =>
  ParseResult.bind (checkAlphaAt s 2) fun _ =>
  ParseResult.bind (checkAlphaAt s 3) fun _ =>
    let value := strUtf8 s
    if value.length = 4 then .ok (mkChunkType value) else .crash

/-- The `Chunk` struct of chunk.rs. -/
structure Chunk : Type where
  chunk_length : Nat
  chunk_type : ChunkType
  chunk_data : List Nat
  chunk_crc : Nat
deriving DecidableEq

/-- `Chunk::new` of chunk.rs: CRC over type bytes ++ data; the length
field is `data.len() as u32` (a truncating cast). -/
def Chunk.new (ct : ChunkType) (data : List Nat) : Chunk :=
  { chunk_length := data.length % 2 ^ 32
    chunk_type := ct
    chunk_data := data
    chunk_crc := crc32 (ct.chunk_type ++ data) }

/-- `Chunk::length` of chunk.rs: `self.chunk_data.len().try_into().unwrap()`,
a `u32` conversion that panics for data of 2^32 bytes or more. -/
def Chunk.length (c : Chunk) : ParseResult Nat :=
  if c.chunk_data.length < 2 ^ 32 then .ok c.chunk_data.length else .crash

/-- `Chunk::as_bytes` of chunk.rs: big-endian length, type bytes, data,
big-endian CRC. -/
def Chunk.as_bytes (c : Chunk) : List Nat :=
  u32_be_bytes c.chunk_length ++ c.chunk_type.chunk_type
    ++ c.chunk_data ++ u32_be_bytes c.chunk_crc

/-- `Chunk::try_from(&[u8])` of chunk.rs, step for step:
reject inputs shorter than 12 bytes; read the big-endian length; slice
the type bytes; slice the data (`source[8..8+length]` panics when the
end index exceeds the slice length); convert the remainder into the
4-byte CRC (`try_into().unwrap()` panics unless exactly 4 bytes remain);
compare the stored CRC against CRC-32 of type ++ data; finally
`ChunkType::try_from(..).unwrap()` panics when the type bytes are not
valid UTF-8. -/
def Chunk.try_from (source : List Nat) : ParseResult Chunk :=
  if source.length < 12 then .err .invalidPngChunkData
  else
    let chunk_length := be32 (source.take 4)
    if source.length < 8 + chunk_length then .crash
    else
      let chunk_type_bytes := (source.drop 4).take 4
      let chunk_data := (source.drop 8).take chunk_length
      if source.length - (8 + chunk_length) ≠ 4 then .crash
      else
        let chunk_crc := be32 (source.drop (8 + chunk_length))
        if crc32 (chunk_type_bytes ++ chunk_data) ≠ chunk_crc then
          .err .invalidChunkCrc
        else
          match ChunkType.try_from chunk_type_bytes with
          | .ok ct =>
            .ok { chunk_length := chunk_length, chunk_type := ct
                  chunk_data := chunk_data, chunk_crc := chunk_crc }
          | _ => .crash

/-! ## Byte-level helper lemmas -/

theorem be32_four (a b c d : Nat) :
    be32 [a, b, c, d] = ((a * 256 + b) * 256 + c) * 256 + d := by
  simp [be32]

theorem be32_lt (a b c d : Nat) (ha : a < 256) (hb : b < 256) (hc : c < 256)
    (hd : d < 256) : be32 [a, b, c, d] < 2 ^ 32 := by
  rw [be32_four]; omega

theorem be32_lt_of_bytes (l : List Nat) (hl : l.length = 4) (hb : allBytes l) :
    be32 l < 2 ^ 32 := by
  match l, hl with
  | [a, b, c, d], _ =>
    exact be32_lt a b c d (hb a (by simp)) (hb b (by simp)) (hb c (by simp))
      (hb d (by simp))

theorem length_u32_be_bytes (n : Nat) : (u32_be_bytes n).length = 4 := rfl

theorem allBytes_u32_be_bytes (n : Nat) : allBytes (u32_be_bytes n) := by
  intro b hb
  simp only [u32_be_bytes, List.mem_cons, List.mem_singleton] at hb
  rcases hb with h | h | h | h | h <;> first | (subst h; omega) | cases h

theorem be32_u32_be_bytes (n : Nat) (h : n < 2 ^ 32) :
    be32 (u32_be_bytes n) = n := by
  simp only [u32_be_bytes, be32_four]
  omega

theorem u32_be_bytes_be32 (l : List Nat) (hl : l.length = 4)
    (hb : allBytes l) : u32_be_bytes (be32 l) = l := by
  match l, hl with
  | [a, b, c, d], _ =>
    have ha : a < 256 := hb a (by simp)
    have hb2 : b < 256 := hb b (by simp)
    have hc : c < 256 := hb c (by simp)
    have hd : d < 256 := hb d (by simp)
    simp only [u32_be_bytes, be32_four, List.cons.injEq, and_true]
    refine ⟨by omega, by omega, by omega, by omega⟩

theorem be32_inj (l1 l2 : List Nat) (h1 : l1.length = 4) (h2 : l2.length = 4)
    (hb1 : allBytes l1) (hb2 : allBytes l2) (h : be32 l1 = be32 l2) :
    l1 = l2 := by
  have := u32_be_bytes_be32 l1 h1 hb1
  have := u32_be_bytes_be32 l2 h2 hb2
  rw [← u32_be_bytes_be32 l1 h1 hb1, ← u32_be_bytes_be32 l2 h2 hb2, h]

/-! ## Well-formedness predicates -/

/-- A `ChunkType` as produced by either construction path of
chunk_type.rs: 4 UTF-8-valid bytes, flags derived from the byte cases. -/
def ChunkType.WF (ct : ChunkType) : Prop :=
  ct.chunk_type.length = 4 ∧ allBytes ct.chunk_type ∧
    utf8Valid ct.chunk_type = true ∧ ct = mkChunkType ct.chunk_type

instance : DecidablePred ChunkType.WF := fun ct => by
  unfold ChunkType.WF; infer_instance

/-- A `Chunk` as produced by `Chunk::new` on in-range data or by a
successful `Chunk::try_from`: well-formed type, length field equal to the
data length, CRC field equal to the CRC-32 of type bytes ++ data. -/
def Chunk.WF (c : Chunk) : Prop :=
  c.chunk_type.WF ∧ allBytes c.chunk_data ∧ c.chunk_data.length < 2 ^ 32 ∧
    c.chunk_length = c.chunk_data.length ∧
    c.chunk_crc = crc32 (c.chunk_type.chunk_type ++ c.chunk_data)

instance : DecidablePred Chunk.WF := fun c => by
  unfold Chunk.WF; infer_instance

/-! ## CRC-32 state lemmas: the byte update is injective, so changing a
single byte of the input always changes the checksum. -/

theorem crcBitStep_lt (c : Nat) (h : c < 2 ^ 32) : crcBitStep c < 2 ^ 32 := by
  unfold crcBitStep
  split
  · exact Nat.xor_lt_two_pow (by omega) (by decide)
  · omega

theorem crcBitStep_inj (c c' : Nat) (h : c < 2 ^ 32) (h' : c' < 2 ^ 32)
    (he : crcBitStep c = crcBitStep c') : c = c' := by
  have hp31 : Nat.testBit crcPoly 31 = true := by decide
  have hhalf : ∀ x : Nat, x < 2 ^ 32 → Nat.testBit (x / 2) 31 = false := by
    intro x hx
    exact Nat.testBit_lt_two_pow (by omega)
  unfold crcBitStep at he
  by_cases h1 : c % 2 = 1 <;> by_cases h2 : c' % 2 = 1 <;>
    simp only [h1, h2, if_pos, if_neg, if_true, if_false] at he
  · have := Nat.xor_cancel_right crcPoly (c / 2)
    have h3 : c / 2 = c' / 2 := by
      have := congrArg (fun z => z ^^^ crcPoly) he
      simpa [Nat.xor_cancel_right] using this
    omega
  · exfalso
    have hbit : Nat.testBit (c / 2 ^^^ crcPoly) 31 = true := by
      rw [Nat.testBit_xor, hhalf c h, hp31]; rfl
    rw [he] at hbit
    rw [hhalf c' h'] at hbit
    exact Bool.false_ne_true hbit
  · exfalso
    have hbit : Nat.testBit (c' / 2 ^^^ crcPoly) 31 = true := by
      rw [Nat.testBit_xor, hhalf c' h', hp31]; rfl
    rw [← he] at hbit
    rw [hhalf c h] at hbit
    exact Bool.false_ne_true hbit
  · omega

theorem crcBitSteps_lt (n c : Nat) (h : c < 2 ^ 32) :
    crcBitSteps n c < 2 ^ 32 := by
  induction n generalizing c with
  | zero => exact h
  | succ k ih => exact ih (crcBitStep c) (crcBitStep_lt c h)

theorem crcBitSteps_inj (n c c' : Nat) (h : c < 2 ^ 32) (h' : c' < 2 ^ 32)
    (he : crcBitSteps n c = crcBitSteps n c') : c = c' := by
  induction n generalizing c c' with
  | zero => exact he
  | succ k ih =>
    exact crcBitStep_inj c c' h h'
      (ih (crcBitStep c) (crcBitStep c') (crcBitStep_lt c h) (crcBitStep_lt c' h') he)

theorem crcByteStep_lt (c b : Nat) (hc : c < 2 ^ 32) (hb : b < 256) :
    crcByteStep c b < 2 ^ 32 :=
  crcBitSteps_lt 8 _ (Nat.xor_lt_two_pow hc (by omega))

theorem crcByteStep_inj_state (c c' b : Nat) (hc : c < 2 ^ 32)
    (hc' : c' < 2 ^ 32) (hb : b < 256) (hne : c ≠ c') :
    crcByteStep c b ≠ crcByteStep c' b := by
  intro he
  apply hne
  have hx := crcBitSteps_inj 8 (c ^^^ b) (c' ^^^ b)
    (Nat.xor_lt_two_pow hc (by omega)) (Nat.xor_lt_two_pow hc' (by omega)) he
  have := congrArg (fun z => z ^^^ b) hx
  simpa [Nat.xor_cancel_right] using this

theorem crcByteStep_inj_byte (c b b' : Nat) (hc : c < 2 ^ 32) (hb : b < 256)
    (hb' : b' < 256) (hne : b ≠ b') : crcByteStep c b ≠ crcByteStep c b' := by
  intro he
  apply hne
  have hx := crcBitSteps_inj 8 (c ^^^ b) (c ^^^ b')
    (Nat.xor_lt_two_pow hc (by omega)) (Nat.xor_lt_two_pow hc (by omega)) he
  have := congrArg (fun z => c ^^^ z) hx
  simpa [Nat.xor_cancel_left] using this

theorem crcFoldl_lt (l : List Nat) (c : Nat) (hc : c < 2 ^ 32)
    (hl : allBytes l) : l.foldl crcByteStep c < 2 ^ 32 := by
  induction l generalizing c with
  | nil => exact hc
  | cons x xs ih =>
    have hx : x < 256 := hl x (by simp)
    exact ih (crcByteStep c x) (crcByteStep_lt c x hc hx)
      (fun b hb => hl b (by simp [hb]))

theorem crcFoldl_inj (l : List Nat) (c c' : Nat) (hc : c < 2 ^ 32)
    (hc' : c' < 2 ^ 32) (hl : allBytes l) (hne : c ≠ c') :
    l.foldl crcByteStep c ≠ l.foldl crcByteStep c' := by
  induction l generalizing c c' with
  | nil => exact hne
  | cons x xs ih =>
    have hx : x < 256 := hl x (by simp)
    exact ih (crcByteStep c x) (crcByteStep c' x)
      (crcByteStep_lt c x hc hx) (crcByteStep_lt c' x hc' hx)
      (fun b hb => hl b (by simp [hb]))
      (crcByteStep_inj_state c c' x hc hc' hx hne)

theorem crc32_lt (l : List Nat) (hl : allBytes l) : crc32 l < 2 ^ 32 := by
  unfold crc32
  exact Nat.xor_lt_two_pow (crcFoldl_lt l _ (by norm_num) hl) (by norm_num)

/-- Changing one byte of the input changes the CRC-32 checksum. -/
theorem crc32_change (pre suf : List Nat) (b b' : Nat) (hpre : allBytes pre)
    (hsuf : allBytes suf) (hb : b < 256) (hb' : b' < 256) (hne : b ≠ b') :
    crc32 (pre ++ b :: suf) ≠ crc32 (pre ++ b' :: suf) := by
  unfold crc32
  intro he
  have hs : pre.foldl crcByteStep 0xFFFFFFFF < 2 ^ 32 :=
    crcFoldl_lt pre _ (by norm_num) hpre
  have h1 : (pre ++ b :: suf).foldl crcByteStep 0xFFFFFFFF
      = suf.foldl crcByteStep (crcByteStep (pre.foldl crcByteStep 0xFFFFFFFF) b) := by
    rw [List.foldl_append]; rfl
  have h2 : (pre ++ b' :: suf).foldl crcByteStep 0xFFFFFFFF
      = suf.foldl crcByteStep (crcByteStep (pre.foldl crcByteStep 0xFFFFFFFF) b') := by
    rw [List.foldl_append]; rfl
  have hxor : (pre ++ b :: suf).foldl crcByteStep 0xFFFFFFFF
      = (pre ++ b' :: suf).foldl crcByteStep 0xFFFFFFFF := by
    have := congrArg (fun z => z ^^^ 0xFFFFFFFF) he
    simpa [Nat.xor_cancel_right] using this
  rw [h1, h2] at hxor
  exact crcFoldl_inj suf _ _
    (crcByteStep_lt _ b hs hb) (crcByteStep_lt _ b' hs hb') hsuf
    (crcByteStep_inj_byte _ b b' hs hb hb' hne) hxor

/-! ## Slice bookkeeping lemmas -/

theorem allBytes_append (l1 l2 : List Nat) :
    allBytes (l1 ++ l2) ↔ allBytes l1 ∧ allBytes l2 := by
  simp [allBytes, or_imp, forall_and]

theorem allBytes_take (l : List Nat) (n : Nat) (h : allBytes l) :
    allBytes (l.take n) := fun b hb => h b (List.mem_of_mem_take hb)

theorem allBytes_drop (l : List Nat) (n : Nat) (h : allBytes l) :
    allBytes (l.drop n) := fun b hb => h b (List.mem_of_mem_drop hb)

theorem drop_eq_take_append_drop (l : List Nat) (n m : Nat) :
    l.drop n = (l.drop n).take m ++ l.drop (n + m) := by
  conv_lhs => rw [← List.take_append_drop m (l.drop n)]
  rw [List.drop_drop]

/-- Evaluation of `Chunk::try_from` on an explicitly segmented buffer:
4-byte big-endian length, 4 type bytes, the data, 4 CRC bytes. -/
theorem chunk_try_from_concat (L : Nat) (T D C : List Nat)
    (hT : T.length = 4) (hC : C.length = 4) (hL : L = D.length)
    (hLlt : L < 2 ^ 32) :
    Chunk.try_from (u32_be_bytes L ++ T ++ D ++ C) =
      (if crc32 (T ++ D) ≠ be32 C then .err .invalidChunkCrc
       else match ChunkType.try_from T with
            | .ok ct => .ok { chunk_length := L, chunk_type := ct,
                              chunk_data := D, chunk_crc := be32 C }
            | _ => .crash) := by
  have hassoc : u32_be_bytes L ++ T ++ D ++ C
      = u32_be_bytes L ++ (T ++ (D ++ C)) := by
    simp [List.append_assoc]
  have hlen : (u32_be_bytes L ++ T ++ D ++ C).length = 12 + D.length := by
    simp [List.length_append, length_u32_be_bytes, hT, hC]; omega
  have h4 : (u32_be_bytes L ++ T ++ D ++ C).take 4 = u32_be_bytes L := by
    rw [hassoc, ← length_u32_be_bytes L, List.take_left]
  have hbeL : be32 ((u32_be_bytes L ++ T ++ D ++ C).take 4) = L := by
    rw [h4, be32_u32_be_bytes L hLlt]
  have hd4 : (u32_be_bytes L ++ T ++ D ++ C).drop 4 = T ++ (D ++ C) := by
    rw [hassoc, ← length_u32_be_bytes L, List.drop_left]
  have htb : ((u32_be_bytes L ++ T ++ D ++ C).drop 4).take 4 = T := by
    rw [hd4, ← hT, List.take_left]
  have hd8 : (u32_be_bytes L ++ T ++ D ++ C).drop 8 = D ++ C := by
    have : (8 : Nat) = 4 + 4 := rfl
    rw [this, ← List.drop_drop, hd4, ← hT, List.drop_left]
  have hdata : ((u32_be_bytes L ++ T ++ D ++ C).drop 8).take L = D := by
    rw [hd8, hL, List.take_left]
  have hcrc : (u32_be_bytes L ++ T ++ D ++ C).drop (8 + L) = C := by
    rw [← List.drop_drop, hd8, hL, List.drop_left]
  simp only [Chunk.try_from, hbeL, htb, hdata, hcrc, hlen]
  rw [if_neg (by omega), if_neg (by omega), if_neg (by omega)]

/-- A successful `Chunk::try_from` output is well-formed, serializes back
to exactly its input, and fixes the input length to 12 + data length. -/
theorem chunk_try_from_ok (b : List Nat) (c : Chunk) (hb : allBytes b)
    (h : Chunk.try_from b = .ok c) :
    Chunk.WF c ∧ c.as_bytes = b ∧ b.length = 12 + c.chunk_data.length ∧
      c.chunk_length = be32 (b.take 4) := by
  simp only [Chunk.try_from] at h
  split at h
  · exact absurd h (by simp)
  · rename_i h12
    split at h
    · exact absurd h (by simp)
    · rename_i h8
      split at h
      · exact absurd h (by simp)
      · rename_i h4r
        split at h
        · exact absurd h (by simp)
        · rename_i hcrc
          split at h
          · rename_i ct heq
            injection h with h
            subst h
            rw [ChunkType.try_from] at heq
            split at heq
            · rename_i hutf8
              injection heq with heq
              subst heq
              have hblen : b.length = 12 + be32 (b.take 4) := by omega
              have hTlen : ((b.drop 4).take 4).length = 4 := by
                simp [List.length_take, List.length_drop]; omega
              have hDlen : ((b.drop 8).take (be32 (b.take 4))).length
                  = be32 (b.take 4) := by
                simp [List.length_take, List.length_drop]; omega
              have hClen : (b.drop (8 + be32 (b.take 4))).length = 4 := by
                simp [List.length_drop]; omega
              have h4len : (b.take 4).length = 4 := by
                simp [List.length_take]; omega
              have hLlt : be32 (b.take 4) < 2 ^ 32 :=
                be32_lt_of_bytes _ h4len (allBytes_take b 4 hb)
              have hcrcE : crc32 ((b.drop 4).take 4
                    ++ (b.drop 8).take (be32 (b.take 4)))
                  = be32 (b.drop (8 + be32 (b.take 4))) := not_ne_iff.mp hcrc
              refine ⟨⟨⟨hTlen, allBytes_take _ 4 (allBytes_drop b 4 hb),
                  hutf8, rfl⟩,
                allBytes_take _ _ (allBytes_drop b 8 hb),
                by simpa [hDlen] using hLlt,
                hDlen.symm,
                hcrcE.symm⟩, ?_, by simpa [hDlen] using hblen, rfl⟩
              show u32_be_bytes (be32 (b.take 4)) ++ (b.drop 4).take 4
                  ++ (b.drop 8).take (be32 (b.take 4))
                  ++ u32_be_bytes (be32 (b.drop (8 + be32 (b.take 4)))) = b
              rw [u32_be_bytes_be32 _ h4len (allBytes_take b 4 hb)]
              rw [u32_be_bytes_be32 _ hClen
                (allBytes_drop b (8 + be32 (b.take 4)) hb)]
              rw [List.append_assoc, List.append_assoc]
              conv_rhs => rw [← List.take_append_drop 4 b]
              congr 1
              have e8 : (b.drop 4).drop 4 = b.drop 8 := by
                simp
              conv_rhs => rw [← List.take_append_drop 4 (b.drop 4)]
              congr 1
              rw [e8]
              exact (drop_eq_take_append_drop b 8 (be32 (b.take 4))).symm
            · exact absurd heq (by simp)
          · exact absurd h (by simp)

/-- Serialization of a well-formed chunk parses back to exactly that
chunk. -/
theorem chunk_try_from_as_bytes (c : Chunk) (h : Chunk.WF c) :
    Chunk.try_from c.as_bytes = .ok c := by
  obtain ⟨⟨hT4, hTb, hTu, hTeq⟩, hDb, hDlt, hlen, hcrc⟩ := h
  have hcrclt : c.chunk_crc < 2 ^ 32 := by
    rw [hcrc]
    exact crc32_lt _ ((allBytes_append _ _).mpr ⟨hTb, hDb⟩)
  have he : c.as_bytes = u32_be_bytes c.chunk_length
      ++ c.chunk_type.chunk_type ++ c.chunk_data
      ++ u32_be_bytes c.chunk_crc := rfl
  rw [he, chunk_try_from_concat c.chunk_length _ _ _ hT4
    (length_u32_be_bytes _) hlen (by omega)]
  rw [be32_u32_be_bytes c.chunk_crc hcrclt]
  rw [if_neg (not_ne_iff.mpr hcrc.symm)]
  rw [ChunkType.try_from, if_pos hTu, ← hTeq]

/-- `Chunk::new` output is well-formed whenever its inputs are. -/
theorem chunk_new_WF (ct : ChunkType) (data : List Nat)
    (hct : ChunkType.WF ct) (hd : allBytes data)
    (hlen : data.length < 2 ^ 32) : Chunk.WF (Chunk.new ct data) := by
  refine ⟨hct, hd, hlen, ?_, rfl⟩
  simp only [Chunk.new]
  omega

/-- ASCII byte sequences are valid UTF-8. -/
theorem utf8Valid_of_ascii (l : List Nat) (h : ∀ b ∈ l, b < 128) :
    utf8Valid l = true := by
  unfold utf8Valid
  induction l with
  | nil => rfl
  | cons b rest ih =>
    have hb : b < 128 := h b (by simp)
    have hstep : utf8Step 0 b = 0 := by
      unfold utf8Step
      rw [if_pos rfl, if_pos (by omega)]
    rw [List.foldl_cons, hstep]
    exact ih (fun x hx => h x (by simp [hx]))

theorem mkChunkType_WF (v : List Nat) (h4 : v.length = 4) (hb : allBytes v)
    (hu : utf8Valid v = true) : ChunkType.WF (mkChunkType v) := ⟨h4, hb, hu, rfl⟩

/-- A successful `ChunkType::from_str` built its result from the UTF-8
bytes of the input, which then had length exactly 4. -/
theorem from_str_ok (s : List Char) (ct : ChunkType)
    (h : ChunkType.from_str s = .ok ct) :
    ct = mkChunkType (strUtf8 s) ∧ (strUtf8 s).length = 4 := by
  simp only [ChunkType.from_str] at h
  rcases e0 : checkAlphaAt s 0 with _ | _ | _ <;> rw [e0] at h <;>
    simp only [ParseResult.bind] at h
  case err => exact absurd h (by simp)
  case crash => exact absurd h (by simp)
  rcases e1 : checkAlphaAt s 1 with _ | _ | _ <;> rw [e1] at h <;>
    simp only [ParseResult.bind] at h
  case err => exact absurd h (by simp)
  case crash => exact absurd h (by simp)
  rcases e2 : checkAlphaAt s 2 with _ | _ | _ <;> rw [e2] at h <;>
    simp only [ParseResult.bind] at h
  case err => exact absurd h (by simp)
  case crash => exact absurd h (by simp)
  rcases e3 : checkAlphaAt s 3 with _ | _ | _ <;> rw [e3] at h <;>
    simp only [ParseResult.bind] at h
  case err => exact absurd h (by simp)
  case crash => exact absurd h (by simp)
  split at h
  · rename_i hl
    injection h with h
    exact ⟨h.symm, hl⟩
  · exact absurd h (by simp)

/-! ## The Container (`Png`).  The file png.rs of the repository is not under src/
(only chunk.rs, chunk_type.rs, args.rs and main.rs are), so the Container
is modelled from the specification, §3 and §4.3. -/

/-- Modelled from the spec: the fixed 8-byte PNG signature
`89 50 4E 47 0D 0A 1A 0A`. -/
def pngSignature : List Nat := [137, 80, 78, 71, 13, 10, 26, 10]

/-- Modelled from the spec: a Container is the 8-byte signature plus an
ordered sequence of chunks (png.rs is missing from src/). -/
structure Png : Type where
  signature : List Nat
  chunks : List Chunk
deriving DecidableEq

/-- Modelled from the spec: `Container::serialize` emits the 8-byte
signature followed by the serialization of each chunk in sequence order. -/
def Png.as_bytes (p : Png) : List Nat :=
  p.signature ++ (p.chunks.map Chunk.as_bytes).flatten

/-- Modelled from the spec: repeatedly parse chunks from the remaining
bytes until the input is exhausted, propagating any chunk parse failure;
each chunk occupies 12 + declared-length bytes. -/
def parseChunksLoop (bytes : List Nat) : ParseResult (List Chunk) :=
  if bytes = [] then .ok []
  else
    match Chunk.try_from (bytes.take (12 + be32 (bytes.take 4))) with
    | .ok c =>
      match parseChunksLoop (bytes.drop (12 + be32 (bytes.take 4))) with
      | .ok cs => .ok (c :: cs)
      | .err e => .err e
      | .crash => .crash
    | .err e => .err e
    | .crash => .crash
termination_by bytes.length
decreasing_by
  rename_i hne
  simp [List.length_drop]
  have : bytes.length ≠ 0 := fun h0 => hne (List.length_eq_zero.mp h0)
  omega

/-- Modelled from the spec: `Container::parse` verifies that the first 8
bytes equal the PNG signature (SignatureMismatch otherwise), then parses
the chunk sequence from the remaining bytes. -/
def Png.parse (bytes : List Nat) : ParseResult Png :=
  if bytes.take 8 = pngSignature then
    match parseChunksLoop (bytes.drop 8) with
    | .ok cs => .ok { signature := bytes.take 8, chunks := cs }
    | .err e => .err e
    | .crash => .crash
  else .err .signatureMismatch

/-- Modelled from the spec: scan the sequence in order and remove the
first chunk whose type code equals the requested one (ChunkTypeCode
equality is structural, byte-for-byte); return the removed chunk and the
remaining sequence. -/
def removeFirstChunk (t : ChunkType) : List Chunk → Option Chunk × List Chunk
  | [] => (none, [])
  | c :: rest =>
    if c.chunk_type.chunk_type = t.chunk_type then (some c, rest)
    else ((removeFirstChunk t rest).1, c :: (removeFirstChunk t rest).2)

/-- Modelled from the spec: `Container::remove_by_type` removes and
returns the first matching chunk, failing with `NotFound` when no chunk
of that type exists; the second component is the container after the
call. -/
def Png.remove_by_type (p : Png) (t : ChunkType) : ParseResult Chunk × Png :=
  match (removeFirstChunk t p.chunks).1 with
  | some c => (.ok c, { signature := p.signature, chunks := (removeFirstChunk t p.chunks).2 })
  | none => (.err .notFound, { signature := p.signature, chunks := (removeFirstChunk t p.chunks).2 })

/-- Modelled from the spec: a well-formed in-memory Container carries the
fixed signature and only well-formed chunks. -/
def Png.WF (p : Png) : Prop :=
  p.signature = pngSignature ∧ ∀ c ∈ p.chunks, Chunk.WF c

instance : DecidablePred Png.WF := fun p => by
  unfold Png.WF; infer_instance

/-- A byte buffer that is a concatenation of individually parseable
chunk records. -/
inductive ChunksBuffer : List Nat → Prop where
  | nil : ChunksBuffer []
  | cons (cb rest : List Nat) (c : Chunk) (hb : allBytes cb)
      (h : Chunk.try_from cb = ParseResult.ok c) (hr : ChunksBuffer rest) :
      ChunksBuffer (cb ++ rest)

/-- Modelled from the spec: a well-formed Container byte buffer is the
signature followed by a sequence of well-formed chunk records. -/
def Png.WFBuffer (b : List Nat) : Prop :=
  ∃ body, b = pngSignature ++ body ∧ ChunksBuffer body

theorem allBytes_as_bytes (c : Chunk) (h : Chunk.WF c) :
    allBytes c.as_bytes := by
  obtain ⟨⟨hT4, hTb, hTu, hTeq⟩, hDb, hDlt, hlen, hcrc⟩ := h
  refine (allBytes_append _ _).mpr ⟨(allBytes_append _ _).mpr
    ⟨(allBytes_append _ _).mpr ⟨allBytes_u32_be_bytes _, hTb⟩, hDb⟩,
    allBytes_u32_be_bytes _⟩

theorem length_as_bytes (c : Chunk) (h : Chunk.WF c) :
    c.as_bytes.length = 12 + c.chunk_data.length := by
  simp [Chunk.as_bytes, List.length_append, length_u32_be_bytes, h.1.1]
  omega

/-- One step of the chunk-sequence parser on a leading parseable record. -/
theorem parseChunksLoop_append (cb rest : List Nat) (c : Chunk)
    (hb : allBytes cb) (h : Chunk.try_from cb = .ok c) :
    parseChunksLoop (cb ++ rest)
      = match parseChunksLoop rest with
        | .ok cs => .ok (c :: cs)
        | .err e => .err e
        | .crash => .crash := by
  obtain ⟨hWF, hser, hlen, hfield⟩ := chunk_try_from_ok cb c hb h
  have hlen2 : cb.length = 12 + be32 (cb.take 4) := by
    rw [hlen, ← hWF.2.2.2.1, hfield]
  have hne : cb ++ rest ≠ [] := by
    intro h0
    have h1 : cb = [] := (List.append_eq_nil.mp h0).1
    rw [h1] at hlen2
    simp [be32] at hlen2
  have htake4 : (cb ++ rest).take 4 = cb.take 4 := by
    rw [List.take_append_of_le_length (by omega)]
  have htakesz : (cb ++ rest).take (12 + be32 ((cb ++ rest).take 4)) = cb := by
    rw [htake4, ← hlen2, List.take_left]
  have hdropsz : (cb ++ rest).drop (12 + be32 ((cb ++ rest).take 4)) = rest := by
    rw [htake4, ← hlen2, List.drop_left]
  rw [parseChunksLoop, if_neg hne, htakesz, hdropsz, h]

theorem parseChunksLoop_nil : parseChunksLoop [] = .ok [] := by
  rw [parseChunksLoop]
  simp

/-- Parsing a buffer of well-formed chunk records yields exactly the
chunks whose serializations concatenate back to the buffer. -/
theorem parseChunksLoop_of_chunksBuffer (body : List Nat)
    (h : ChunksBuffer body) :
    ∃ cs, parseChunksLoop body = .ok cs ∧
      (cs.map Chunk.as_bytes).flatten = body ∧ ∀ c ∈ cs, Chunk.WF c := by
  induction h with
  | nil => exact ⟨[], parseChunksLoop_nil, rfl, by simp⟩
  | cons cb rest c hb hc hr ih =>
    obtain ⟨cs, h1, h2, h3⟩ := ih
    obtain ⟨hWF, hser, _, _⟩ := chunk_try_from_ok cb c hb hc
    refine ⟨c :: cs, ?_, ?_, ?_⟩
    · rw [parseChunksLoop_append cb rest c hb hc, h1]
    · simp [h2, hser]
    · intro x hx
      rcases List.mem_cons.mp hx with h | h
      · subst h; exact hWF
      · exact h3 x h

/-- Parsing the concatenated serializations of well-formed chunks
recovers exactly those chunks. -/
theorem parseChunksLoop_serialize (cs : List Chunk)
    (h : ∀ c ∈ cs, Chunk.WF c) :
    parseChunksLoop ((cs.map Chunk.as_bytes).flatten) = .ok cs := by
  induction cs with
  | nil => exact parseChunksLoop_nil
  | cons c rest ih =>
    have hc : Chunk.WF c := h c (by simp)
    have he : (List.map Chunk.as_bytes (c :: rest)).flatten
        = c.as_bytes ++ (List.map Chunk.as_bytes rest).flatten := by simp
    rw [he, parseChunksLoop_append _ _ c (allBytes_as_bytes c hc)
      (chunk_try_from_as_bytes c hc), ih (fun x hx => h x (by simp [hx]))]

theorem png_parse_serialize (p : Png) (h : Png.WF p) :
    Png.parse p.as_bytes = .ok p := by
  obtain ⟨hsig, hchunks⟩ := h
  have hb : p.as_bytes = pngSignature ++ (p.chunks.map Chunk.as_bytes).flatten := by
    rw [Png.as_bytes, hsig]
  have hsig8 : (pngSignature : List Nat).length = 8 := rfl
  have htake : p.as_bytes.take 8 = pngSignature := by
    rw [hb, ← hsig8, List.take_left]
  have hdrop : p.as_bytes.drop 8 = (p.chunks.map Chunk.as_bytes).flatten := by
    rw [hb, ← hsig8, List.drop_left]
  rw [Png.parse, if_pos htake, hdrop, parseChunksLoop_serialize p.chunks hchunks]
  rw [htake, ← hsig]

theorem png_parse_buffer (b : List Nat) (h : Png.WFBuffer b) :
    ∃ p, Png.parse b = .ok p ∧ p.as_bytes = b ∧ Png.WF p := by
  obtain ⟨body, hb, hcb⟩ := h
  obtain ⟨cs, h1, h2, h3⟩ := parseChunksLoop_of_chunksBuffer body hcb
  have hsig8 : (pngSignature : List Nat).length = 8 := rfl
  have htake : b.take 8 = pngSignature := by
    rw [hb, ← hsig8, List.take_left]
  have hdrop : b.drop 8 = body := by
    rw [hb, ← hsig8, List.drop_left]
  refine ⟨{ signature := b.take 8, chunks := cs }, ?_, ?_, ?_⟩
  · rw [Png.parse, if_pos htake, hdrop, h1]
  · rw [Png.as_bytes]
    simp only
    rw [h2, htake, hb]
  · exact ⟨htake, h3⟩

/-- Removal scan on a list without a matching chunk returns the list
unchanged and reports no chunk found. -/
theorem removeFirstChunk_not_found (t : ChunkType) (l : List Chunk)
    (h : ∀ c ∈ l, c.chunk_type.chunk_type ≠ t.chunk_type) :
    removeFirstChunk t l = (none, l) := by
  induction l with
  | nil => rfl
  | cons c rest ih =>
    rw [removeFirstChunk, if_neg (h c (by simp)),
      ih (fun x hx => h x (by simp [hx]))]

/-- Removal scan on a list whose first match is `c` removes exactly that
occurrence. -/
theorem removeFirstChunk_found (t : ChunkType) (pre suf : List Chunk)
    (c : Chunk) (hpre : ∀ x ∈ pre, x.chunk_type.chunk_type ≠ t.chunk_type)
    (hc : c.chunk_type.chunk_type = t.chunk_type) :
    removeFirstChunk t (pre ++ c :: suf) = (some c, pre ++ suf) := by
  induction pre with
  | nil =>
    rw [List.nil_append, removeFirstChunk, if_pos hc, List.nil_append]
  | cons x rest ih =>
    rw [List.cons_append, removeFirstChunk, if_neg (hpre x (by simp)),
      ih (fun y hy => hpre y (by simp [hy])), List.cons_append]

/-! ## Single-bit corruption -/

/-- Flip bit `k` of the byte at index `j`. -/
def flipBit (l : List Nat) (j k : Nat) : List Nat :=
  l.set j ((l.getD j 0) ^^^ 2 ^ k)

theorem getD_lt_of_allBytes (l : List Nat) (j : Nat) (h : allBytes l) :
    l.getD j 0 < 256 := by
  by_cases hj : j < l.length
  · rw [List.getD_eq_getElem l 0 hj]
    exact h _ (List.getElem_mem hj)
  · rw [List.getD_eq_default l 0 (by omega)]
    omega

theorem allBytes_flipBit (l : List Nat) (j k : Nat) (h : allBytes l)
    (hk : k < 8) : allBytes (flipBit l j k) := by
  intro b hb
  rcases List.mem_or_eq_of_mem_set hb with h1 | h1
  · exact h b h1
  · subst h1
    have h2 : l.getD j 0 < 2 ^ 8 := getD_lt_of_allBytes l j h
    have h3 : (2 : Nat) ^ k < 2 ^ 8 := Nat.pow_lt_pow_right (by omega) hk
    exact Nat.xor_lt_two_pow h2 h3

theorem length_flipBit (l : List Nat) (j k : Nat) :
    (flipBit l j k).length = l.length := List.length_set ..

theorem flipBit_append_right (l1 l2 : List Nat) (j k : Nat) :
    flipBit (l1 ++ l2) (l1.length + j) k = l1 ++ flipBit l2 j k := by
  unfold flipBit
  rw [List.set_append_right _ _ (by omega),
    List.getD_append_right l1 l2 0 _ (by omega)]
  simp only [Nat.add_sub_cancel_left]

theorem flipBit_append_left (l1 l2 : List Nat) (j k : Nat)
    (h : j < l1.length) : flipBit (l1 ++ l2) j k = flipBit l1 j k ++ l2 := by
  unfold flipBit
  rw [List.set_append_left _ _ h, List.getD_append l1 l2 0 _ h]

theorem flipBit_byte_ne (x k : Nat) : x ^^^ 2 ^ k ≠ x := by
  intro he
  have h1 : x ^^^ (x ^^^ 2 ^ k) = x ^^^ x := congrArg (fun z => x ^^^ z) he
  rw [Nat.xor_cancel_left, Nat.xor_self] at h1
  exact absurd h1 (Nat.pos_iff_ne_zero.mp (Nat.pos_pow_of_pos k (by omega)))

theorem flipBit_segments (l : List Nat) (j k : Nat) (h : j < l.length) :
    flipBit l j k = l.take j ++ ((l.getD j 0) ^^^ 2 ^ k) :: l.drop (j + 1) := by
  unfold flipBit
  rw [List.set_eq_take_append_cons_drop, if_pos h]

theorem take_cons_drop_self (l : List Nat) (j : Nat) (h : j < l.length) :
    l = l.take j ++ (l.getD j 0) :: l.drop (j + 1) := by
  conv_lhs => rw [← List.take_append_drop j l]
  rw [List.drop_eq_getElem_cons h, List.getD_eq_getElem l 0 h]

theorem flipBit_ne (l : List Nat) (j k : Nat) (h : j < l.length) :
    flipBit l j k ≠ l := by
  intro he
  have h1 := congrArg (fun m => m.getD j 0) he
  simp only [flipBit] at h1
  rw [List.getD_eq_getElem _ 0 (by rw [List.length_set]; exact h),
    List.getElem_set_self] at h1
  rw [List.getD_eq_getElem l 0 h] at h1
  rw [← List.getD_eq_getElem l 0 h] at h1
  exact flipBit_byte_ne _ k h1

/-- Flipping any bit of the stored CRC field of a well-formed serialized
chunk makes `Chunk::try_from` fail with the CRC error. -/
theorem chunk_flip_crc_err (c : Chunk) (h : Chunk.WF c) (j k : Nat)
    (hj : j < 4) (hk : k < 8) :
    Chunk.try_from (flipBit c.as_bytes (8 + c.chunk_data.length + j) k)
      = .err .invalidChunkCrc := by
  obtain ⟨⟨hT4, hTb, hTu, hTeq⟩, hDb, hDlt, hlen, hcrc⟩ := h
  have hcrclt : c.chunk_crc < 2 ^ 32 := by
    rw [hcrc]
    exact crc32_lt _ ((allBytes_append _ _).mpr ⟨hTb, hDb⟩)
  have hXlen : (u32_be_bytes c.chunk_length ++ c.chunk_type.chunk_type
      ++ c.chunk_data).length = 8 + c.chunk_data.length := by
    simp [List.length_append, length_u32_be_bytes, hT4]
    omega
  have hflip : flipBit c.as_bytes (8 + c.chunk_data.length + j) k
      = u32_be_bytes c.chunk_length ++ c.chunk_type.chunk_type
        ++ c.chunk_data ++ flipBit (u32_be_bytes c.chunk_crc) j k := by
    rw [Chunk.as_bytes,
      show 8 + c.chunk_data.length + j
        = (u32_be_bytes c.chunk_length ++ c.chunk_type.chunk_type
            ++ c.chunk_data).length + j from by rw [hXlen],
      flipBit_append_right]
  have hC'len : (flipBit (u32_be_bytes c.chunk_crc) j k).length = 4 := by
    rw [length_flipBit, length_u32_be_bytes]
  rw [hflip, chunk_try_from_concat c.chunk_length _ _ _ hT4 hC'len hlen
    (by omega)]
  rw [if_pos ?hne]
  case hne =>
    intro he
    have hbeC : be32 (u32_be_bytes c.chunk_crc) = c.chunk_crc :=
      be32_u32_be_bytes _ hcrclt
    have heq : be32 (flipBit (u32_be_bytes c.chunk_crc) j k)
        = be32 (u32_be_bytes c.chunk_crc) := ((hbeC.trans hcrc).trans he).symm
    have : flipBit (u32_be_bytes c.chunk_crc) j k = u32_be_bytes c.chunk_crc :=
      be32_inj _ _ hC'len (length_u32_be_bytes _)
        (allBytes_flipBit _ j k (allBytes_u32_be_bytes _) hk)
        (allBytes_u32_be_bytes _) heq
    exact flipBit_ne (u32_be_bytes c.chunk_crc) j k
      (by rw [length_u32_be_bytes]; omega) this

/-- Flipping any bit of the data of a well-formed serialized chunk makes
`Chunk::try_from` fail with the CRC error. -/
theorem chunk_flip_data_err (c : Chunk) (h : Chunk.WF c) (j k : Nat)
    (hj : j < c.chunk_data.length) (hk : k < 8) :
    Chunk.try_from (flipBit c.as_bytes (8 + j) k) = .err .invalidChunkCrc := by
  obtain ⟨⟨hT4, hTb, hTu, hTeq⟩, hDb, hDlt, hlen, hcrc⟩ := h
  have h8 : (u32_be_bytes c.chunk_length ++ c.chunk_type.chunk_type).length
      = 8 := by
    simp [List.length_append, length_u32_be_bytes, hT4]
  have hre : c.as_bytes
      = (u32_be_bytes c.chunk_length ++ c.chunk_type.chunk_type)
        ++ (c.chunk_data ++ u32_be_bytes c.chunk_crc) := by
    simp [Chunk.as_bytes, List.append_assoc]
  have hflip : flipBit c.as_bytes (8 + j) k
      = u32_be_bytes c.chunk_length ++ c.chunk_type.chunk_type
        ++ flipBit c.chunk_data j k ++ u32_be_bytes c.chunk_crc := by
    rw [hre, show 8 + j
        = (u32_be_bytes c.chunk_length ++ c.chunk_type.chunk_type).length + j
        from by rw [h8],
      flipBit_append_right, flipBit_append_left _ _ j k hj]
    simp [List.append_assoc]
  have hD'len : c.chunk_length = (flipBit c.chunk_data j k).length := by
    rw [length_flipBit]; exact hlen
  rw [hflip, chunk_try_from_concat c.chunk_length _ _ _ hT4
    (length_u32_be_bytes _) hD'len (by omega)]
  rw [if_pos ?hne2]
  case hne2 =>
    rw [be32_u32_be_bytes _ (by
      rw [hcrc]
      exact crc32_lt _ ((allBytes_append _ _).mpr ⟨hTb, hDb⟩)), hcrc]
    have hsegD : c.chunk_data
        = c.chunk_data.take j ++ (c.chunk_data.getD j 0)
          :: c.chunk_data.drop (j + 1) := take_cons_drop_self _ j hj
    have hsegD' : flipBit c.chunk_data j k
        = c.chunk_data.take j ++ ((c.chunk_data.getD j 0) ^^^ 2 ^ k)
          :: c.chunk_data.drop (j + 1) := flipBit_segments _ j k hj
    rw [hsegD']
    conv_rhs => rw [hsegD]
    rw [← List.append_assoc, ← List.append_assoc]
    have hbj : c.chunk_data.getD j 0 < 256 := getD_lt_of_allBytes _ j hDb
    refine crc32_change _ _ _ _ ?_ ?_ ?_ hbj (flipBit_byte_ne _ k)
    · exact (allBytes_append _ _).mpr ⟨hTb, allBytes_take _ j hDb⟩
    · exact allBytes_drop _ (j + 1) hDb
    · exact Nat.xor_lt_two_pow hbj (Nat.pow_lt_pow_right (by omega) hk)

/-- Evaluation of `Chunk::try_from` on an input of exactly
12 + declared-length bytes: all slicing succeeds and the CRC comparison
decides the outcome. -/
theorem chunk_try_from_exact (source : List Nat)
    (h : source.length = 12 + be32 (source.take 4)) :
    Chunk.try_from source =
      (if crc32 ((source.drop 4).take 4
            ++ (source.drop 8).take (be32 (source.take 4)))
          ≠ be32 (source.drop (8 + be32 (source.take 4))) then
        .err .invalidChunkCrc
       else match ChunkType.try_from ((source.drop 4).take 4) with
            | .ok ct =>
              .ok { chunk_length := be32 (source.take 4), chunk_type := ct,
                    chunk_data := (source.drop 8).take (be32 (source.take 4)),
                    chunk_crc := be32 (source.drop (8 + be32 (source.take 4))) }
            | _ => .crash) := by
  simp only [Chunk.try_from]
  rw [if_neg (by omega), if_neg (by omega), if_neg (by omega)]

/-- On a 4-character ASCII string, `ChunkType::from_str` succeeds exactly
when every character is alphabetic. -/
theorem from_str_ascii4_iff (c0 c1 c2 c3 : Char)
    (h0 : c0.toNat < 128) (h1 : c1.toNat < 128) (h2 : c2.toNat < 128)
    (h3 : c3.toNat < 128) :
    (∃ ct, ChunkType.from_str [c0, c1, c2, c3] = .ok ct)
      ↔ (c0.isAlpha ∧ c1.isAlpha ∧ c2.isAlpha ∧ c3.isAlpha) := by
  by_cases a0 : c0.isAlpha <;> by_cases a1 : c1.isAlpha <;>
    by_cases a2 : c2.isAlpha <;> by_cases a3 : c3.isAlpha <;>
    simp [ChunkType.from_str, checkAlphaAt, ParseResult.bind, a0, a1, a2, a3,
      strUtf8, charUtf8, h0, h1, h2, h3]

/-! ## Claim theorems -/

/-- C2: the claim says a declared length exceeding the available bytes
yields a typed `Truncated` error and that no input aborts the process.
The code has no truncation check: on this 12-byte input with declared
length 5, `source[8..8+5]` is an out-of-bounds slice index, which panics
(aborts) instead of returning an error. -/
theorem c2_truncated_input_panics :
    Chunk.try_from [0, 0, 0, 5, 82, 117, 83, 116, 0, 0, 0, 0]
      = ParseResult.crash := by decide

/-- C3 counterexample: `ChunkType::try_from` accepts the four digit
bytes "0000", none of which is ASCII alphabetic, because the bytes path
only checks UTF-8 validity — refuting the claim that construction from
raw bytes fails with `InvalidTypeBytes` on non-alphabetic bytes. -/
theorem c3_counterexample :
    ChunkType.try_from [48, 48, 48, 48]
        = .ok { chunk_type := [48, 48, 48, 48], is_valid := false,
                is_public := false, is_critical := false,
                is_safe_to_copy := false, is_reserved_bit_valid := false }
      ∧ isAsciiUppercaseNat 48 = false ∧ isAsciiLowercaseNat 48 = false := by
  decide

/-- C3 (amended): on a 4-character ASCII string, `ChunkType::from_str`
succeeds exactly when every character is alphabetic; on 4 raw bytes,
`ChunkType::try_from` succeeds exactly when the bytes are valid UTF-8 —
it does not require ASCII alphabetic bytes. -/
theorem c3_type_construction :
    (∀ c0 c1 c2 c3 : Char, c0.toNat < 128 → c1.toNat < 128 →
        c2.toNat < 128 → c3.toNat < 128 →
        ((∃ ct, ChunkType.from_str [c0, c1, c2, c3] = .ok ct)
          ↔ (c0.isAlpha ∧ c1.isAlpha ∧ c2.isAlpha ∧ c3.isAlpha)))
    ∧ (∀ v : List Nat,
        (∃ ct, ChunkType.try_from v = .ok ct) ↔ utf8Valid v = true) := by
  refine ⟨from_str_ascii4_iff, ?_⟩
  intro v
  by_cases h : utf8Valid v <;> simp [ChunkType.try_from, h]

theorem c3_type_construction_witness :
    (('R' : Char).toNat < 128 ∧ ('u' : Char).toNat < 128
        ∧ ('S' : Char).toNat < 128 ∧ ('t' : Char).toNat < 128)
      ∧ ((∃ ct, ChunkType.from_str ['R', 'u', 'S', 't'] = .ok ct)
          ↔ (('R' : Char).isAlpha ∧ ('u' : Char).isAlpha
              ∧ ('S' : Char).isAlpha ∧ ('t' : Char).isAlpha)) :=
  ⟨⟨by decide, by decide, by decide, by decide⟩,
    c3_type_construction.1 'R' 'u' 'S' 't'
      (by decide) (by decide) (by decide) (by decide)⟩

/-- C8: for every successfully constructed chunk type — through either
construction path — the stored flags are the stated pure function of the
4 bytes (`critical`/`public`/`reserved_bit_valid` from uppercase of
bytes 0/1/2, `safe_to_copy` from lowercase of byte 3, `valid` equal to
`reserved_bit_valid`); in particular "RuSt" yields critical, not public,
reserved-bit valid, safe to copy and valid, and "Rust" yields an invalid
reserved bit. -/
theorem c8_type_flags :
    (∀ (v : List Nat) (ct : ChunkType), ChunkType.try_from v = .ok ct →
        ct.is_critical = isAsciiUppercaseNat (v.getD 0 0)
          ∧ ct.is_public = isAsciiUppercaseNat (v.getD 1 0)
          ∧ ct.is_reserved_bit_valid = isAsciiUppercaseNat (v.getD 2 0)
          ∧ ct.is_safe_to_copy = isAsciiLowercaseNat (v.getD 3 0)
          ∧ ct.is_valid = ct.is_reserved_bit_valid)
    ∧ (∀ (s : List Char) (ct : ChunkType), ChunkType.from_str s = .ok ct →
        ct.is_critical = isAsciiUppercaseNat ((strUtf8 s).getD 0 0)
          ∧ ct.is_public = isAsciiUppercaseNat ((strUtf8 s).getD 1 0)
          ∧ ct.is_reserved_bit_valid = isAsciiUppercaseNat ((strUtf8 s).getD 2 0)
          ∧ ct.is_safe_to_copy = isAsciiLowercaseNat ((strUtf8 s).getD 3 0)
          ∧ ct.is_valid = ct.is_reserved_bit_valid)
    ∧ (∃ ct, ChunkType.from_str ['R', 'u', 'S', 't'] = .ok ct
        ∧ ct.is_critical = true ∧ ct.is_public = false
        ∧ ct.is_reserved_bit_valid = true ∧ ct.is_safe_to_copy = true
        ∧ ct.is_valid = true)
    ∧ (∃ ct, ChunkType.from_str ['R', 'u', 's', 't'] = .ok ct
        ∧ ct.is_reserved_bit_valid = false ∧ ct.is_valid = false) := by
  refine ⟨?_, ?_, ?_, ?_⟩
  · intro v ct h
    rw [ChunkType.try_from] at h
    split at h
    · injection h with h
      subst h
      exact ⟨rfl, rfl, rfl, rfl, rfl⟩
    · exact absurd h (by simp)
  · intro s ct h
    obtain ⟨hct, _⟩ := from_str_ok s ct h
    subst hct
    exact ⟨rfl, rfl, rfl, rfl, rfl⟩
  · exact ⟨mkChunkType [82, 117, 83, 116], by decide⟩
  · exact ⟨mkChunkType [82, 117, 115, 116], by decide⟩

theorem c8_type_flags_witness :
    ChunkType.try_from [82, 117, 83, 116]
        = .ok (mkChunkType [82, 117, 83, 116])
      ∧ ((mkChunkType [82, 117, 83, 116]).is_critical
            = isAsciiUppercaseNat (([82, 117, 83, 116] : List Nat).getD 0 0)
          ∧ (mkChunkType [82, 117, 83, 116]).is_public
            = isAsciiUppercaseNat (([82, 117, 83, 116] : List Nat).getD 1 0)
          ∧ (mkChunkType [82, 117, 83, 116]).is_reserved_bit_valid
            = isAsciiUppercaseNat (([82, 117, 83, 116] : List Nat).getD 2 0)
          ∧ (mkChunkType [82, 117, 83, 116]).is_safe_to_copy
            = isAsciiLowercaseNat (([82, 117, 83, 116] : List Nat).getD 3 0)
          ∧ (mkChunkType [82, 117, 83, 116]).is_valid
            = (mkChunkType [82, 117, 83, 116]).is_reserved_bit_valid) :=
  ⟨by decide, c8_type_flags.1 [82, 117, 83, 116] _ (by decide)⟩

/-- C1 counterexample: the claim ranges over all inputs of at least 12
bytes whose declared length is covered by the available bytes, and
asserts an error is returned exactly on a CRC mismatch.  On this 13-byte
input (declared length 0, one trailing byte) the stored CRC field equals
the recomputed CRC-32, yet `Chunk::try_from` panics at the
`try_into().unwrap()` of the 5-byte remainder instead of returning
`Ok`. -/
theorem c1_counterexample :
    crc32 ((([0, 0, 0, 0, 82, 117, 83, 116, 212, 132, 9, 60, 7] : List Nat).drop 4).take 4
        ++ (([0, 0, 0, 0, 82, 117, 83, 116, 212, 132, 9, 60, 7] : List Nat).drop 8).take 0)
        = be32 ((([0, 0, 0, 0, 82, 117, 83, 116, 212, 132, 9, 60, 7] : List Nat).drop 8).take 4)
      ∧ Chunk.try_from [0, 0, 0, 0, 82, 117, 83, 116, 212, 132, 9, 60, 7]
        = ParseResult.crash := by decide

/-- C1 (amended): restricted to inputs of exactly 12 + declared-length
bytes, `Chunk::try_from` returns the CRC error exactly when CRC-32
recomputed over the type bytes ++ data differs from the stored
big-endian CRC field; and flipping any single bit of the stored CRC
field or of the data bytes of a well-formed serialized chunk makes
parsing fail with the CRC error. -/
theorem c1_crc_gate :
    (∀ source : List Nat, allBytes source →
        source.length = 12 + be32 (source.take 4) →
        (Chunk.try_from source = .err .invalidChunkCrc ↔
          crc32 ((source.drop 4).take 4
              ++ (source.drop 8).take (be32 (source.take 4)))
            ≠ be32 (source.drop (8 + be32 (source.take 4)))))
    ∧ (∀ c : Chunk, Chunk.WF c → ∀ j k : Nat, j < 4 → k < 8 →
        Chunk.try_from (flipBit c.as_bytes (8 + c.chunk_data.length + j) k)
          = .err .invalidChunkCrc)
    ∧ (∀ c : Chunk, Chunk.WF c → ∀ j k : Nat, j < c.chunk_data.length →
        k < 8 →
        Chunk.try_from (flipBit c.as_bytes (8 + j) k)
          = .err .invalidChunkCrc) := by
  refine ⟨?_, chunk_flip_crc_err, chunk_flip_data_err⟩
  intro source hb hlen
  rw [chunk_try_from_exact source hlen]
  by_cases hc : crc32 ((source.drop 4).take 4
        ++ (source.drop 8).take (be32 (source.take 4)))
      ≠ be32 (source.drop (8 + be32 (source.take 4)))
  · simp [hc]
  · rw [if_neg hc]
    constructor
    · intro he
      exfalso
      rcases e : ChunkType.try_from ((source.drop 4).take 4)
        with ct | e2 | _ <;> rw [e] at he <;> simp at he
    · intro hcontra
      exact absurd hcontra hc

theorem c1_crc_gate_witness :
    (allBytes [0, 0, 0, 0, 82, 117, 83, 116, 212, 132, 9, 60]
      ∧ ([0, 0, 0, 0, 82, 117, 83, 116, 212, 132, 9, 60] : List Nat).length
        = 12 + be32 (([0, 0, 0, 0, 82, 117, 83, 116, 212, 132, 9, 60] : List Nat).take 4))
    ∧ (Chunk.try_from [0, 0, 0, 0, 82, 117, 83, 116, 212, 132, 9, 60]
          = .err .invalidChunkCrc ↔
        crc32 ((([0, 0, 0, 0, 82, 117, 83, 116, 212, 132, 9, 60] : List Nat).drop 4).take 4
            ++ (([0, 0, 0, 0, 82, 117, 83, 116, 212, 132, 9, 60] : List Nat).drop 8).take
              (be32 (([0, 0, 0, 0, 82, 117, 83, 116, 212, 132, 9, 60] : List Nat).take 4)))
          ≠ be32 (([0, 0, 0, 0, 82, 117, 83, 116, 212, 132, 9, 60] : List Nat).drop
            (8 + be32 (([0, 0, 0, 0, 82, 117, 83, 116, 212, 132, 9, 60] : List Nat).take 4)))) :=
  ⟨⟨by decide, by decide⟩,
    c1_crc_gate.1 [0, 0, 0, 0, 82, 117, 83, 116, 212, 132, 9, 60]
      (by decide) (by decide)⟩

/-- C4: serialization emits, in order, the big-endian length, the type
bytes, the data and the big-endian CRC; and `Chunk::try_from` applied to
the serialization of any chunk produced by `Chunk::new` (on u32-ranged
byte data with a well-formed type) or by a successful parse returns
exactly that chunk. -/
theorem c4_serialize_parse_inverse :
    (∀ (ct : ChunkType) (data : List Nat), ChunkType.WF ct →
        allBytes data → data.length < 2 ^ 32 →
        (Chunk.new ct data).as_bytes
            = u32_be_bytes data.length ++ ct.chunk_type ++ data
              ++ u32_be_bytes (crc32 (ct.chunk_type ++ data))
          ∧ Chunk.try_from ((Chunk.new ct data).as_bytes)
            = .ok (Chunk.new ct data))
    ∧ (∀ (b : List Nat) (c : Chunk), allBytes b →
        Chunk.try_from b = .ok c →
        c.as_bytes = b ∧ Chunk.try_from c.as_bytes = .ok c) := by
  constructor
  · intro ct data hct hd hlen
    constructor
    · simp only [Chunk.new, Chunk.as_bytes]
      rw [Nat.mod_eq_of_lt hlen]
    · exact chunk_try_from_as_bytes _ (chunk_new_WF ct data hct hd hlen)
  · intro b c hb h
    obtain ⟨hWF, hser, _, _⟩ := chunk_try_from_ok b c hb h
    exact ⟨hser, by rw [hser]; exact h⟩

theorem c4_serialize_parse_inverse_witness :
    (ChunkType.WF (mkChunkType [82, 117, 83, 116])
      ∧ allBytes [104, 105] ∧ ([104, 105] : List Nat).length < 2 ^ 32)
    ∧ ((Chunk.new (mkChunkType [82, 117, 83, 116]) [104, 105]).as_bytes
          = u32_be_bytes ([104, 105] : List Nat).length
            ++ (mkChunkType [82, 117, 83, 116]).chunk_type ++ [104, 105]
            ++ u32_be_bytes (crc32 ((mkChunkType [82, 117, 83, 116]).chunk_type
                ++ [104, 105]))
        ∧ Chunk.try_from ((Chunk.new (mkChunkType [82, 117, 83, 116]) [104, 105]).as_bytes)
          = .ok (Chunk.new (mkChunkType [82, 117, 83, 116]) [104, 105])) :=
  ⟨⟨by decide, by decide, by decide⟩,
    c4_serialize_parse_inverse.1 (mkChunkType [82, 117, 83, 116]) [104, 105]
      (by decide) (by decide) (by decide)⟩

/-- C5: Container round-trips in both directions (Container modelled
from the spec, since png.rs is not under src/): every well-formed byte
buffer parses successfully and re-serializes to exactly itself, and
every well-formed in-memory Container parses back from its serialization
to a structurally equal Container, chunk order preserved. -/
theorem c5_container_roundtrip :
    (∀ b : List Nat, Png.WFBuffer b →
        ∃ p, Png.parse b = .ok p ∧ p.as_bytes = b)
    ∧ (∀ p : Png, Png.WF p → Png.parse p.as_bytes = .ok p) := by
  constructor
  · intro b h
    obtain ⟨p, h1, h2, _⟩ := png_parse_buffer b h
    exact ⟨p, h1, h2⟩
  · exact png_parse_serialize

set_option maxRecDepth 8192 in
theorem c5_container_roundtrip_witness :
    Png.WF (⟨pngSignature,
        [Chunk.new (mkChunkType [82, 117, 83, 116]) [104, 105]]⟩ : Png)
    ∧ Png.parse (Png.as_bytes (⟨pngSignature,
          [Chunk.new (mkChunkType [82, 117, 83, 116]) [104, 105]]⟩ : Png))
      = .ok (⟨pngSignature,
          [Chunk.new (mkChunkType [82, 117, 83, 116]) [104, 105]]⟩ : Png) :=
  ⟨by decide, c5_container_roundtrip.2 _ (by decide)⟩

/-- C6: on a Container whose sequence contains a chunk of the requested
type, `remove_by_type` removes and returns exactly the first such chunk
(sequence order), leaving every other chunk — including later chunks of
the same type — in place in order (Container modelled from the spec). -/
theorem c6_remove_first_match :
    ∀ (p : Png) (t : ChunkType) (pre suf : List Chunk) (c : Chunk),
      p.chunks = pre ++ c :: suf →
      (∀ x ∈ pre, x.chunk_type.chunk_type ≠ t.chunk_type) →
      c.chunk_type.chunk_type = t.chunk_type →
      Png.remove_by_type p t
        = (.ok c, { signature := p.signature, chunks := pre ++ suf }) := by
  intro p t pre suf c hp hpre hc
  simp only [Png.remove_by_type, hp,
    removeFirstChunk_found t pre suf c hpre hc]

theorem c6_remove_first_match_witness :
    (Png.chunks (⟨pngSignature,
          [Chunk.new (mkChunkType [82, 117, 83, 116]) [1],
           Chunk.new (mkChunkType [82, 117, 83, 116]) [2]]⟩ : Png)
        = [] ++ Chunk.new (mkChunkType [82, 117, 83, 116]) [1]
            :: [Chunk.new (mkChunkType [82, 117, 83, 116]) [2]]
      ∧ (Chunk.new (mkChunkType [82, 117, 83, 116]) [1]).chunk_type.chunk_type
        = (mkChunkType [82, 117, 83, 116]).chunk_type)
    ∧ Png.remove_by_type
        (⟨pngSignature,
          [Chunk.new (mkChunkType [82, 117, 83, 116]) [1],
           Chunk.new (mkChunkType [82, 117, 83, 116]) [2]]⟩ : Png)
        (mkChunkType [82, 117, 83, 116])
      = (.ok (Chunk.new (mkChunkType [82, 117, 83, 116]) [1]),
         (⟨pngSignature,
           [] ++ [Chunk.new (mkChunkType [82, 117, 83, 116]) [2]]⟩ : Png)) :=
  ⟨⟨rfl, rfl⟩,
    c6_remove_first_match _ (mkChunkType [82, 117, 83, 116]) []
      [Chunk.new (mkChunkType [82, 117, 83, 116]) [2]]
      (Chunk.new (mkChunkType [82, 117, 83, 116]) [1])
      rfl (by simp) rfl⟩

/-- C7: on a Container with no chunk of the requested type,
`remove_by_type` fails with `NotFound` and returns the Container with
its signature and chunk sequence exactly as before (Container modelled
from the spec). -/
theorem c7_remove_not_found :
    ∀ (p : Png) (t : ChunkType),
      (∀ x ∈ p.chunks, x.chunk_type.chunk_type ≠ t.chunk_type) →
      Png.remove_by_type p t = (.err .notFound, p) := by
  intro p t h
  simp only [Png.remove_by_type, removeFirstChunk_not_found t p.chunks h]

theorem c7_remove_not_found_witness :
    (∀ x ∈ Png.chunks (⟨pngSignature,
          [Chunk.new (mkChunkType [82, 117, 83, 116]) [1]]⟩ : Png),
        x.chunk_type.chunk_type ≠ (mkChunkType [70, 114, 83, 116]).chunk_type)
    ∧ Png.remove_by_type
        (⟨pngSignature,
          [Chunk.new (mkChunkType [82, 117, 83, 116]) [1]]⟩ : Png)
        (mkChunkType [70, 114, 83, 116])
      = (.err .notFound,
         (⟨pngSignature,
           [Chunk.new (mkChunkType [82, 117, 83, 116]) [1]]⟩ : Png)) :=
  ⟨by decide, c7_remove_not_found _ (mkChunkType [70, 114, 83, 116]) (by decide)⟩

/-- C9: `Chunk::new` always succeeds, stores exactly the given data, and
computes its CRC field as CRC-32 over the type bytes ++ data; its
`length()` accessor returns the byte count of the data whenever that
count fits in a u32; and every chunk returned by a successful
`Chunk::try_from` satisfies `length() = data().len()` with a matching
stored length field. -/
theorem c9_new_chunk_invariants :
    (∀ (ct : ChunkType) (data : List Nat),
        (Chunk.new ct data).chunk_crc = crc32 (ct.chunk_type ++ data)
          ∧ (Chunk.new ct data).chunk_data = data
          ∧ (data.length < 2 ^ 32 →
              Chunk.length (Chunk.new ct data) = .ok data.length))
    ∧ (∀ (b : List Nat) (c : Chunk), allBytes b → Chunk.try_from b = .ok c →
        Chunk.length c = .ok c.chunk_data.length
          ∧ c.chunk_length = c.chunk_data.length) := by
  constructor
  · intro ct data
    refine ⟨rfl, rfl, fun h => ?_⟩
    simp only [Chunk.length, Chunk.new]
    rw [if_pos h]
  · intro b c hb h
    obtain ⟨hWF, _, _, _⟩ := chunk_try_from_ok b c hb h
    refine ⟨?_, hWF.2.2.2.1⟩
    rw [Chunk.length, if_pos hWF.2.2.1]

theorem c9_new_chunk_invariants_witness :
    (([104, 105] : List Nat).length < 2 ^ 32
      ∧ Chunk.length (Chunk.new (mkChunkType [82, 117, 83, 116]) [104, 105])
        = .ok ([104, 105] : List Nat).length)
    ∧ (allBytes [0, 0, 0, 0, 82, 117, 83, 116, 212, 132, 9, 60]
      ∧ Chunk.try_from [0, 0, 0, 0, 82, 117, 83, 116, 212, 132, 9, 60]
        = .ok (Chunk.new (mkChunkType [82, 117, 83, 116]) [])
      ∧ Chunk.length (Chunk.new (mkChunkType [82, 117, 83, 116]) [])
        = .ok (Chunk.new (mkChunkType [82, 117, 83, 116]) []).chunk_data.length) :=
  ⟨⟨by decide,
    (c9_new_chunk_invariants.1 (mkChunkType [82, 117, 83, 116]) [104, 105]).2.2
      (by decide)⟩,
   ⟨by decide, by decide,
    (c9_new_chunk_invariants.2 [0, 0, 0, 0, 82, 117, 83, 116, 212, 132, 9, 60]
      (Chunk.new (mkChunkType [82, 117, 83, 116]) [])
      (by decide) (by decide)).1⟩⟩

/-- C10: `Chunk::try_from` yields a chunk only when the input is exactly
12 + declared-length bytes long; any input with trailing bytes beyond
the 4-byte CRC makes the conversion of the remaining slice into a 4-byte
array fail (the `unwrap` panics), so such a slice never yields a
chunk. -/
theorem c10_exact_length_only :
    (∀ (source : List Nat) (c : Chunk), Chunk.try_from source = .ok c →
        source.length = 12 + be32 (source.take 4))
    ∧ (∀ source : List Nat, 12 ≤ source.length →
        12 + be32 (source.take 4) < source.length →
        Chunk.try_from source = .crash) := by
  constructor
  · intro source c h
    simp only [Chunk.try_from] at h
    split at h
    · simp at h
    · rename_i h12
      split at h
      · simp at h
      · rename_i h8
        split at h
        · simp at h
        · rename_i h4r
          omega
  · intro source h12 hgt
    simp only [Chunk.try_from]
    rw [if_neg (by omega), if_neg (by omega), if_pos (by omega)]

theorem c10_exact_length_only_witness :
    (Chunk.try_from [0, 0, 0, 0, 82, 117, 83, 116, 212, 132, 9, 60]
        = .ok (Chunk.new (mkChunkType [82, 117, 83, 116]) [])
      ∧ ([0, 0, 0, 0, 82, 117, 83, 116, 212, 132, 9, 60] : List Nat).length
        = 12 + be32 (([0, 0, 0, 0, 82, 117, 83, 116, 212, 132, 9, 60] : List Nat).take 4))
    ∧ (12 ≤ ([0, 0, 0, 0, 82, 117, 83, 116, 212, 132, 9, 60, 7] : List Nat).length
      ∧ 12 + be32 (([0, 0, 0, 0, 82, 117, 83, 116, 212, 132, 9, 60, 7] : List Nat).take 4)
        < ([0, 0, 0, 0, 82, 117, 83, 116, 212, 132, 9, 60, 7] : List Nat).length
      ∧ Chunk.try_from [0, 0, 0, 0, 82, 117, 83, 116, 212, 132, 9, 60, 7]
        = .crash) :=
  ⟨⟨by decide,
    c10_exact_length_only.1 [0, 0, 0, 0, 82, 117, 83, 116, 212, 132, 9, 60]
      (Chunk.new (mkChunkType [82, 117, 83, 116]) []) (by decide)⟩,
   ⟨by decide, by decide,
    c10_exact_length_only.2 [0, 0, 0, 0, 82, 117, 83, 116, 212, 132, 9, 60, 7]
      (by decide) (by decide)⟩⟩
